import Mathlib

/-!
Verification of the mailio protocol core (SMTP / POP3 / dialog layer).

Shallow embedding of the C++ sources:
  * `src/include/mailio/net/dialog.hpp`       (line normalization, read_line, read_exactly)
  * `src/include/mailio/smtp/client.hpp`      (reply parser, ehlo, start_tls, authenticate, send)
  * `src/include/mailio/detail/auth_policy.hpp` (ensure_auth_allowed)
  * `src/include/mailio/pop3/client.hpp`      (retr, parse_status)
  * `src/unnamed/part_002`                    (upgradable_stream)

Strings are modelled as `List Char`; network interaction is modelled by
explicit lists of incoming reply lines and explicit traces of the bytes
written to the wire.
-/

namespace Mailio

/-- Byte strings / text, modelled as lists of characters. -/
abbrev Str := List Char

/-- CRLF line terminator. -/
def crlf : Str := ['\r', '\n']

/- ------------------------------------------------------------------ -/
/- Dialog layer: `mailio::dialog::normalize_line` (dialog.hpp 286-305) -/
/- ------------------------------------------------------------------ -/

/-- Embedding of `dialog::normalize_line`:
if the line already ends with CRLF return it unchanged; if it ends with a
lone LF, replace the LF by CRLF; if it ends with a lone CR, append LF;
otherwise append CRLF. -/
def normalize_line (line : Str) : Str :=
  if 2 ≤ line.length ∧ line.drop (line.length - 2) = crlf then
    line
  else if line ≠ [] ∧ line.getLast? = some '\n' then
    line.dropLast ++ crlf
  else if line ≠ [] ∧ line.getLast? = some '\r' then
    line ++ ['\n']
  else
    line ++ crlf

/-- Spec-side predicate: the string ends with CRLF. -/
def endsWithCRLF (s : Str) : Prop :=
  2 ≤ s.length ∧ s.drop (s.length - 2) = crlf

instance (s : Str) : Decidable (endsWithCRLF s) := by
  unfold endsWithCRLF; infer_instance

/-- Spec-side normalization, written from the spec's four rules, to be
compared with the source's `normalize_line`. -/
def normalizeSpec (s : Str) : Str :=
  if endsWithCRLF s then s
  else if s.getLast? = some '\n' then s.dropLast ++ crlf
  else if s.getLast? = some '\r' then s ++ ['\n']
  else s ++ crlf

/- ------------------------------------------------------------------ -/
/- SMTP engine: errors, replies, reply parser (smtp/client.hpp)        -/
/- ------------------------------------------------------------------ -/

/-- Errors thrown by the SMTP client (`mailio::smtp::error` messages),
plus `needMore`, which models a read that blocks because the peer has not
sent further lines. -/
inductive SmtpErr
  | parseFailure
  | connectionRejection
  | initialRejection
  | startTlsFailure
  | authRejection
  | usernameRejection
  | passwordRejection
  | mailSenderMissing
  | noRecipients
  | senderRejection
  | recipientRejection
  | messageRejection
  | connectionNotEstablished
  | needMore
deriving Repr, DecidableEq

/-- Embedding of `mailio::smtp::reply` (smtp/types.hpp). -/
structure Reply where
  status : Nat
  lines : List Str
deriving Repr, DecidableEq

def Reply.isPositiveCompletion (r : Reply) : Bool := r.status / 100 == 2

def Reply.isPositiveIntermediate (r : Reply) : Bool := r.status / 100 == 3

def digitVal (c : Char) : Nat := c.toNat - '0'.toNat

/-- One iteration of the `read_reply` loop body (smtp/client.hpp 229-250):
check the line has at least three characters, all digits, compute the code,
and classify the fourth character (`'-'` continuation, `' '` or absent
final, anything else a parse failure); the text is everything from index 4.
Returns `(code, is_last, text)`. -/
def parseReplyLine (line : Str) : Except SmtpErr (Nat × Bool × Str) :=
  match line with
  | c0 :: c1 :: c2 :: rest =>
    if c0.isDigit ∧ c1.isDigit ∧ c2.isDigit then
      let code := digitVal c0 * 100 + digitVal c1 * 10 + digitVal c2
      match rest with
      | [] => .ok (code, true, [])
      | c3 :: text =>
        if c3 = '-' then .ok (code, false, text)
        else if c3 = ' ' then .ok (code, true, text)
        else .error .parseFailure
    else .error .parseFailure
  | _ => .error .parseFailure

/-- The loop of `smtp::client::read_reply` (smtp/client.hpp 222-264) over a
list of pending input lines. `status` is `rep.status` (0 meaning unset) and
`acc` the accumulated text lines. Returns the reply and unconsumed lines. -/
def readReplyLoop : Nat → List Str → List Str → Except SmtpErr (Reply × List Str)
  | _, _, [] => .error .needMore
  | status, acc, line :: rest =>
    match parseReplyLine line with
    | .error e => .error e
    | .ok (code, last, text) =>
      if status = 0 then
        if last then .ok (⟨code, acc ++ [text]⟩, rest)
        else readReplyLoop code (acc ++ [text]) rest
      else if status = code then
        if last then .ok (⟨status, acc ++ [text]⟩, rest)
        else readReplyLoop status (acc ++ [text]) rest
      else .error .parseFailure

/-- Embedding of `smtp::client::read_reply`. -/
def readReply (input : List Str) : Except SmtpErr (Reply × List Str) :=
  readReplyLoop 0 [] input

/-- The three-digit code of a reply line, when the line parses. -/
def lineCode (l : Str) : Option Nat :=
  match parseReplyLine l with
  | .ok (c, _, _) => some c
  | .error _ => none

/- ------------------------------------------------------------------ -/
/- SMTP capability parsing (smtp/client.hpp 328-377, smtp/types.hpp)   -/
/- ------------------------------------------------------------------ -/

/-- `to_upper_ascii` (smtp/client.hpp 436-448). -/
def toUpperAscii (s : Str) : Str :=
  s.map (fun ch => if 'a' ≤ ch ∧ ch ≤ 'z' then Char.ofNat (ch.toNat - 32) else ch)

/-- `to_lower_ascii` (smtp/client.hpp 422-434). -/
def toLowerAscii (s : Str) : Str :=
  s.map (fun ch => if 'A' ≤ ch ∧ ch ≤ 'Z' then Char.ofNat (ch.toNat + 32) else ch)

/-- The parameter-splitting loop of `parse_capabilities` (client.hpp
356-371): split on spaces, skipping empty tokens; `current` is the token
being accumulated. -/
def spaceSplitAux (current : Str) : Str → List Str
  | [] => if current = [] then [] else [current]
  | ch :: rest =>
    if ch = ' ' then
      if current = [] then spaceSplitAux [] rest
      else current :: spaceSplitAux [] rest
    else spaceSplitAux (current ++ [ch]) rest

def spaceSplit (s : Str) : List Str := spaceSplitAux [] s

/-- Capability map: `std::map<std::string, std::vector<std::string>>`
modelled as an association list (key order differs from `std::map`'s
sorted iteration order, which no claim depends on). -/
abbrev CapMap := List (Str × List Str)

/-- `capabilities_.entries[key]` followed by appending `params`
(client.hpp 374-375): create the slot if absent, else extend it. -/
def capInsert : CapMap → Str → List Str → CapMap
  | [], k, ps => [(k, ps)]
  | (k2, v) :: rest, k, ps =>
    if k2 = k then (k2, v ++ ps) :: rest else (k2, v) :: capInsert rest k ps

/-- Keyword of a capability line: characters before the first space,
uppercased (client.hpp 348-350). -/
def capKey (line : Str) : Str := toUpperAscii (line.takeWhile (· ≠ ' '))

/-- Parameters of a capability line: the text after the first space,
space-split with empty tokens skipped (client.hpp 352-372). -/
def capParams (line : Str) : List Str :=
  spaceSplit ((line.dropWhile (· ≠ ' ')).drop 1)

/-- The per-line loop of `parse_capabilities` (client.hpp 342-376),
starting from already-accumulated `entries`. Empty lines are skipped. -/
def parseCapsLines (entries : CapMap) : List Str → CapMap
  | [] => entries
  | line :: rest =>
    if line = [] then parseCapsLines entries rest
    else parseCapsLines (capInsert entries (capKey line) (capParams line)) rest

/-- Embedding of `smtp::client::parse_capabilities` (client.hpp 328-377):
clear the entries; if the reply has more than one line and the first line
contains no space, skip the first line (greeting); parse the remaining
lines into the capability map. -/
def parse_capabilities (rep : Reply) : CapMap :=
  match rep.lines with
  | [] => []
  | first :: rest =>
    if rest ≠ [] ∧ ' ' ∉ first then parseCapsLines [] rest
    else parseCapsLines [] (first :: rest)

/- ------------------------------------------------------------------ -/
/- Upgradable stream (src/unnamed/part_002) and auth policy gate       -/
/- ------------------------------------------------------------------ -/

/-- The variant held by `mailio::upgradable_stream`: a plain TCP socket or
a TLS stream over it. -/
inductive StreamSt
  | plain
  | tls
deriving Repr, DecidableEq

/-- `upgradable_stream::is_tls` (part_002 59-62). -/
def StreamSt.isTls : StreamSt → Bool
  | .plain => false
  | .tls => true

/-- `upgradable_stream::start_tls` (part_002 82-99): a no-op when the TLS
variant is already active; otherwise moves the socket into a TLS stream
and performs the client handshake (modelled as succeeding — the claims
condition on handshake success). Returns the resulting variant and
whether a handshake was performed. -/
def streamStartTls : StreamSt → StreamSt × Bool
  | .tls => (.tls, false)
  | .plain => (.tls, true)

/-- The options consulted by the auth policy gate (fields
`require_tls_for_auth` and `allow_cleartext_auth` of the per-protocol
options). -/
structure AuthOptions where
  require_tls_for_auth : Bool
  allow_cleartext_auth : Bool
deriving Repr, DecidableEq

inductive AuthGateResult
  | allowed
  | allowedWithWarning
  | tlsRequired
deriving Repr, DecidableEq

/-- Embedding of `mailio::detail::ensure_auth_allowed` (auth_policy.hpp
22-32): pass when TLS is active or TLS is not required for auth;
warn-and-pass when cleartext auth is explicitly allowed; otherwise the
"TLS required for authentication" error. -/
def ensure_auth_allowed (is_tls : Bool) (o : AuthOptions) : AuthGateResult :=
  if is_tls || !o.require_tls_for_auth then .allowed
  else if o.allow_cleartext_auth then .allowedWithWarning
  else .tlsRequired

/- ------------------------------------------------------------------ -/
/- SMTP client state and operations (smtp/client.hpp)                  -/
/- ------------------------------------------------------------------ -/

/-- The part of the dialog relevant to the SMTP claims: the stream
variant, the maximum line length and the timeout. -/
structure DialogSt where
  stream : StreamSt
  maxLen : Nat
  timeout : Option Nat
deriving Repr, DecidableEq

/-- `smtp::client` member state: `dialog_` (None before `connect`),
`remote_host_` and `capabilities_`. -/
structure ClientState where
  dialog : Option DialogSt
  remoteHost : Str
  caps : CapMap
deriving Repr, DecidableEq

/-- Outcome of one SMTP client operation: the result (or thrown error),
the client state afterwards, the bytes written to the wire (one entry per
write, already CRLF-normalized), and the unconsumed input lines. -/
structure OpOut (α : Type) where
  result : Except SmtpErr α
  state : ClientState
  written : List Str
  remaining : List Str
deriving Repr

/-- `smtp::client::read_greeting` (client.hpp 77-83): read one reply via
the dialog (failing if connect has not run) and require status 220. -/
def smtp_read_greeting (st : ClientState) (input : List Str) : OpOut Reply :=
  match st.dialog with
  | none => ⟨.error .connectionNotEstablished, st, [], input⟩
  | some _ =>
    match readReply input with
    | .error e => ⟨.error e, st, [], input⟩
    | .ok (rep, rest) =>
      if rep.status = 220 then ⟨.ok rep, st, [], rest⟩
      else ⟨.error .connectionRejection, st, [], rest⟩

/-- `smtp::client::ehlo` (client.hpp 85-100), with the HELO name passed
explicitly (the source defaults it to the host machine's name, an
environmental detail outside the model): send EHLO; if the reply is not
2xx, send HELO; if that is also not 2xx, throw initial_rejection (note
the source throws before reaching the `capabilities_.entries.clear()`
statement); on HELO 2xx clear the capabilities and return the reply; on
EHLO 2xx parse the capabilities. -/
def smtp_ehlo (st : ClientState) (name : Str) (input : List Str) : OpOut Reply :=
  match st.dialog with
  | none => ⟨.error .connectionNotEstablished, st, [], input⟩
  | some _ =>
    let w1 := normalize_line ("EHLO ".data ++ name)
    match readReply input with
    | .error e => ⟨.error e, st, [w1], input⟩
    | .ok (rep1, rest1) =>
      if rep1.isPositiveCompletion then
        ⟨.ok rep1, { st with caps := parse_capabilities rep1 }, [w1], rest1⟩
      else
        let w2 := normalize_line ("HELO ".data ++ name)
        match readReply rest1 with
        | .error e => ⟨.error e, st, [w1, w2], rest1⟩
        | .ok (rep2, rest2) =>
          if rep2.isPositiveCompletion then
            ⟨.ok rep2, { st with caps := [] }, [w1, w2], rest2⟩
          else
            ⟨.error .initialRejection, st, [w1, w2], rest2⟩

/-- `smtp::client::start_tls` (client.hpp 102-118): send STARTTLS and
require status 220; then move the stream out of the dialog, upgrade it
(SNI defaults to the stored remote host, not tracked by the model), and
re-create the dialog with the saved max line length and timeout. -/
def smtp_start_tls (st : ClientState) (_sni : Str) (input : List Str) : OpOut Unit :=
  match st.dialog with
  | none => ⟨.error .connectionNotEstablished, st, [], input⟩
  | some d =>
    let w := normalize_line "STARTTLS".data
    match readReply input with
    | .error e => ⟨.error e, st, [w], input⟩
    | .ok (rep, rest) =>
      if rep.status = 220 then
        ⟨.ok (), { st with dialog := some ⟨(streamStartTls d.stream).1, d.maxLen, d.timeout⟩ },
          [w], rest⟩
      else ⟨.error .startTlsFailure, st, [w], rest⟩

def base64Alphabet : Str :=
  "ABCDEFGHIJKLMNOPQRSTUVWXYZabcdefghijklmnopqrstuvwxyz0123456789+/".data

def b64char (n : Nat) : Char := base64Alphabet.getD n 'A'

/-- Modelled from the spec: the Base64 codec (`mailio/codec/base64.hpp`,
not under src/) exposes `encode(bytes) -> ASCII lines`; with the NONE
line-length policy used by the SMTP auth paths and `join_lines`, the
result is one blob of standard RFC 4648 Base64 with `=` padding. -/
def base64Encode : Str → Str
  | [] => []
  | [a] =>
    let x := a.toNat % 256
    [b64char (x / 4), b64char (x % 4 * 16), '=', '=']
  | [a, b] =>
    let x := a.toNat % 256
    let y := b.toNat % 256
    [b64char (x / 4), b64char (x % 4 * 16 + y / 16), b64char (y % 16 * 4), '=']
  | a :: b :: c :: rest =>
    let x := a.toNat % 256
    let y := b.toNat % 256
    let z := c.toNat % 256
    [b64char (x / 4), b64char (x % 4 * 16 + y / 16),
     b64char (y % 16 * 4 + z / 64), b64char (z % 64)] ++ base64Encode rest

/-- `smtp::client::authenticate_plain` (client.hpp 266-286): send
`AUTH PLAIN <Base64("\0" + username + "\0" + password)>`; if the server
answers 334 resend the blob alone; success on 2xx, else authentication
rejection. No auth policy gate is consulted anywhere on this path. -/
def smtp_authenticate_plain (st : ClientState) (username password : Str)
    (input : List Str) : OpOut Unit :=
  match st.dialog with
  | none => ⟨.error .connectionNotEstablished, st, [], input⟩
  | some _ =>
    let auth := '\x00' :: (username ++ '\x00' :: password)
    let encoded := base64Encode auth
    let w1 := normalize_line ("AUTH PLAIN ".data ++ encoded)
    match readReply input with
    | .error e => ⟨.error e, st, [w1], input⟩
    | .ok (rep, rest) =>
      if rep.status = 334 then
        let w2 := normalize_line encoded
        match readReply rest with
        | .error e => ⟨.error e, st, [w1, w2], rest⟩
        | .ok (rep2, rest2) =>
          if rep2.isPositiveCompletion then ⟨.ok (), st, [w1, w2], rest2⟩
          else ⟨.error .authRejection, st, [w1, w2], rest2⟩
      else if rep.isPositiveCompletion then ⟨.ok (), st, [w1], rest⟩
      else ⟨.error .authRejection, st, [w1], rest⟩

/-- `smtp::client::authenticate_login` (client.hpp 288-306): send
`AUTH LOGIN` expecting 334, then Base64(username) expecting 334, then
Base64(password) expecting 2xx. No auth policy gate is consulted. -/
def smtp_authenticate_login (st : ClientState) (username password : Str)
    (input : List Str) : OpOut Unit :=
  match st.dialog with
  | none => ⟨.error .connectionNotEstablished, st, [], input⟩
  | some _ =>
    let w1 := normalize_line "AUTH LOGIN".data
    match readReply input with
    | .error e => ⟨.error e, st, [w1], input⟩
    | .ok (rep1, rest1) =>
      if rep1.status = 334 then
        let w2 := normalize_line (base64Encode username)
        match readReply rest1 with
        | .error e => ⟨.error e, st, [w1, w2], rest1⟩
        | .ok (rep2, rest2) =>
          if rep2.status = 334 then
            let w3 := normalize_line (base64Encode password)
            match readReply rest2 with
            | .error e => ⟨.error e, st, [w1, w2, w3], rest2⟩
            | .ok (rep3, rest3) =>
              if rep3.isPositiveCompletion then ⟨.ok (), st, [w1, w2, w3], rest3⟩
              else ⟨.error .passwordRejection, st, [w1, w2, w3], rest3⟩
          else ⟨.error .usernameRejection, st, [w1, w2], rest2⟩
      else ⟨.error .authRejection, st, [w1], rest1⟩

/-- Embedding of `mailio::smtp::auth_method` (smtp/types.hpp). -/
inductive AuthMethod
  | plain
  | login
deriving Repr, DecidableEq

/-- `smtp::client::authenticate` (client.hpp 120-131): dispatch on the
method. Note that the source consults no auth policy before either
branch. -/
def smtp_authenticate (st : ClientState) (username password : Str)
    (m : AuthMethod) (input : List Str) : OpOut Unit :=
  match m with
  | .plain => smtp_authenticate_plain st username password input
  | .login => smtp_authenticate_login st username password input

/-- `smtp::client::noop`/`rset`/`quit` (client.hpp 189-202): one command
round-trip; the reply is returned without a status check. -/
def smtp_simple_command (st : ClientState) (cmd : Str) (input : List Str) :
    OpOut Reply :=
  match st.dialog with
  | none => ⟨.error .connectionNotEstablished, st, [], input⟩
  | some _ =>
    match readReply input with
    | .error e => ⟨.error e, st, [normalize_line cmd], input⟩
    | .ok (rep, rest) => ⟨.ok rep, st, [normalize_line cmd], rest⟩

def smtp_noop (st : ClientState) (input : List Str) : OpOut Reply :=
  smtp_simple_command st "NOOP".data input

def smtp_rset (st : ClientState) (input : List Str) : OpOut Reply :=
  smtp_simple_command st "RSET".data input

def smtp_quit (st : ClientState) (input : List Str) : OpOut Reply :=
  smtp_simple_command st "QUIT".data input

/- ------------------------------------------------------------------ -/
/- SMTP send (client.hpp 133-187, 379-434)                             -/
/- ------------------------------------------------------------------ -/

structure MailAddress where
  name : Str
  address : Str
deriving Repr, DecidableEq

/-- `mailio::mailboxes`: plain addresses plus named groups of members. -/
structure Mailboxes where
  addresses : List MailAddress
  groups : List (List MailAddress)
deriving Repr, DecidableEq

/-- The `mailio::message` collaborator as the SMTP engine sees it:
sender/from/recipient address lists plus the already-serialized RFC 5322
bytes produced by the external `format` (with dot-escaping on and the
BCC header suppressed). -/
structure Message where
  sender : MailAddress
  fromAddrs : List MailAddress
  toBoxes : Mailboxes
  ccBoxes : Mailboxes
  bccBoxes : Mailboxes
  formatted : Str
deriving Repr, DecidableEq

/-- `mailio::smtp::envelope` (smtp/types.hpp). -/
structure Envelope where
  mail_from : Str
  rcpt_to : List Str
deriving Repr, DecidableEq

/-- `append_mailboxes` (client.hpp 388-403): the non-empty addresses,
then the non-empty group-member addresses. -/
def mailboxAddrs (boxes : Mailboxes) : List Str :=
  (boxes.addresses.filter (fun a => a.address ≠ [])).map MailAddress.address ++
  (boxes.groups.flatten.filter (fun m => m.address ≠ [])).map MailAddress.address

/-- `collect_recipients` (client.hpp 379-386): To, then Cc, then Bcc. -/
def collectRecipients (msg : Message) : List Str :=
  mailboxAddrs msg.toBoxes ++ mailboxAddrs msg.ccBoxes ++ mailboxAddrs msg.bccBoxes

/-- `dedup` (client.hpp 405-420): drop empty addresses and duplicates
under ASCII lowercasing, keeping the first-seen casing; `seen` models the
`unordered_set` of lowercased keys. -/
def dedupAux (seen : List Str) : List Str → List Str
  | [] => []
  | addr :: rest =>
    if addr = [] then dedupAux seen rest
    else
      let key := toLowerAscii addr
      if key ∈ seen then dedupAux seen rest
      else addr :: dedupAux (key :: seen) rest

def dedup (as : List Str) : List Str := dedupAux [] as

/-- MAIL FROM resolution (client.hpp 135-147): envelope override, else the
message's Sender, else the first From address. -/
def sendMailFrom (msg : Message) (env : Envelope) : Str :=
  if env.mail_from ≠ [] then env.mail_from
  else if msg.sender.address ≠ [] then msg.sender.address
  else match msg.fromAddrs with
    | [] => []
    | a :: _ => a.address

/-- RCPT TO resolution (client.hpp 151-154): envelope override, else the
collected To/Cc/Bcc addresses, then dedup. -/
def sendRecipients (msg : Message) (env : Envelope) : List Str :=
  dedup (if env.rcpt_to ≠ [] then env.rcpt_to else collectRecipients msg)

/-- The RCPT TO loop (client.hpp 162-167): one command per recipient, each
requiring 2xx. Returns the remaining input (or the error) and the wire
lines written. -/
def smtpRcptLoop : List Str → List Str → Except SmtpErr (List Str) × List Str
  | [], input => (.ok input, [])
  | rcpt :: more, input =>
    let w := normalize_line ("RCPT TO: <".data ++ rcpt ++ ">".data)
    match readReply input with
    | .error e => (.error e, [w])
    | .ok (rep, rest) =>
      if rep.isPositiveCompletion then
        let pr := smtpRcptLoop more rest
        (pr.1, w :: pr.2)
      else (.error .recipientRejection, [w])

/-- `smtp::client::send` (client.hpp 133-187): resolve MAIL FROM (error if
empty) and the deduplicated recipient set (error if empty) before touching
the dialog; then MAIL FROM (2xx), each RCPT TO (2xx), DATA (3xx), the
serialized message followed by CRLF `.` CRLF as one raw write, and a final
2xx reply. -/
def smtp_send (st : ClientState) (msg : Message) (env : Envelope)
    (input : List Str) : OpOut Reply :=
  let mail_from := sendMailFrom msg env
  if mail_from = [] then ⟨.error .mailSenderMissing, st, [], input⟩
  else
    let recipients := sendRecipients msg env
    if recipients = [] then ⟨.error .noRecipients, st, [], input⟩
    else
      match st.dialog with
      | none => ⟨.error .connectionNotEstablished, st, [], input⟩
      | some _ =>
        let w1 := normalize_line ("MAIL FROM: <".data ++ mail_from ++ ">".data)
        match readReply input with
        | .error e => ⟨.error e, st, [w1], input⟩
        | .ok (rep1, rest1) =>
          if rep1.isPositiveCompletion then
            match smtpRcptLoop recipients rest1 with
            | (.error e, ws) => ⟨.error e, st, w1 :: ws, rest1⟩
            | (.ok rest2, ws) =>
              let wd := normalize_line "DATA".data
              match readReply rest2 with
              | .error e => ⟨.error e, st, w1 :: ws ++ [wd], rest2⟩
              | .ok (rep3, rest3) =>
                if rep3.isPositiveIntermediate then
                  let wbody := msg.formatted ++ "\r\n.\r\n".data
                  match readReply rest3 with
                  | .error e => ⟨.error e, st, w1 :: ws ++ [wd, wbody], rest3⟩
                  | .ok (rep4, rest4) =>
                    if rep4.isPositiveCompletion then
                      ⟨.ok rep4, st, w1 :: ws ++ [wd, wbody], rest4⟩
                    else ⟨.error .messageRejection, st, w1 :: ws ++ [wd, wbody], rest4⟩
                else ⟨.error .messageRejection, st, w1 :: ws ++ [wd], rest3⟩
          else ⟨.error .senderRejection, st, [w1], rest1⟩

/- ------------------------------------------------------------------ -/
/- Concrete states used by the closed theorems                         -/
/- ------------------------------------------------------------------ -/

/-- A connected, non-TLS SMTP client state. -/
def connectedPlain : ClientState :=
  ⟨some ⟨.plain, 8192, none⟩, "smtp.example.com".data, []⟩

/-- A connected, non-TLS state with a previously parsed capability set. -/
def connectedWithCaps : ClientState :=
  ⟨some ⟨.plain, 8192, none⟩, "smtp.example.com".data,
    [("SIZE".data, ["35882577".data])]⟩

/-- A client state on which `connect` has not run. -/
def noConnState : ClientState := ⟨none, [], []⟩

def emptyMessage : Message := ⟨⟨[], []⟩, [], ⟨[], []⟩, ⟨[], []⟩, ⟨[], []⟩, []⟩

def validMessage : Message :=
  ⟨⟨[], "alice@example.com".data⟩, [],
    ⟨[⟨[], "bob@example.com".data⟩], []⟩, ⟨[], []⟩, ⟨[], []⟩, []⟩

def emptyEnvelope : Envelope := ⟨[], []⟩

/- ------------------------------------------------------------------ -/
/- Dialog reads: read_line and read_exactly (dialog.hpp 107-217)       -/
/- ------------------------------------------------------------------ -/

/-- Errors completing a dialog read. `lineTooLong` is
`boost::asio::error::message_size`, `notFound` is
`boost::asio::error::not_found` (delimiter not found within the capped
dynamic buffer), `invalidArgument` the defensive branch of `read_line`,
and `needMoreBytes` models a read that blocks because the peer sends no
further bytes. -/
inductive DialogErr
  | lineTooLong
  | notFound
  | invalidArgument
  | needMoreBytes
deriving Repr, DecidableEq

/-- Index of the first LF, as `read_buffer_.find('\n')`. -/
def findLF : Str → Option Nat
  | [] => none
  | c :: rest => if c = '\n' then some 0 else (findLF rest).map (· + 1)

/-- The line-extraction step of `dialog::read_line` (dialog.hpp 119-127
and 154-162): `pos` is the index of the first LF in `buf`; the line
length excludes a CR immediately before the LF; a line longer than
`maxLen` completes with `message_size`; otherwise the line is returned
and the buffer erased through the LF. -/
def extractLine (maxLen : Nat) (buf : Str) (pos : Nat) :
    Except DialogErr (Str × Str) :=
  let lineLen := if 0 < pos ∧ buf.getD (pos - 1) ' ' = '\r' then pos - 1 else pos
  if maxLen < lineLen then .error .lineTooLong
  else .ok (buf.take lineLen, buf.drop (pos + 1))

/-- Modelled from Boost.Asio's documented `async_read_until` semantics
with a size-capped dynamic buffer (dialog.hpp 131-137 caps the buffer at
`max_line_length_ + 2`): bytes move from the network into the buffer
until the buffer contains the LF delimiter; reaching the cap without a
contained LF fails with `error::not_found`; a stream that ends first
never completes (`needMoreBytes`). Transfers are modelled as minimal: no
byte beyond the delimiter is consumed. -/
def readUntilLF (cap : Nat) (buf net : Str) : Except DialogErr (Str × Str) :=
  match findLF net with
  | some k =>
    if buf.length + k + 1 ≤ cap then
      .ok (buf ++ net.take (k + 1), net.drop (k + 1))
    else .error .notFound
  | none =>
    if cap ≤ buf.length + net.length then .error .notFound
    else .error .needMoreBytes

/-- Embedding of `dialog::read_line` (dialog.hpp 107-164): if the buffer
already holds an LF, extract the line from it; otherwise read from the
network until LF with the buffer capped at `maxLen + 2`, then extract.
Returns the line, the new buffer and the unread network bytes. -/
def read_line (maxLen : Nat) (buf net : Str) :
    Except DialogErr (Str × Str × Str) :=
  match findLF buf with
  | some pos =>
    match extractLine maxLen buf pos with
    | .error e => .error e
    | .ok (line, buf2) => .ok (line, buf2, net)
  | none =>
    match readUntilLF (maxLen + 2) buf net with
    | .error e => .error e
    | .ok (buf1, net1) =>
      match findLF buf1 with
      | none => .error .invalidArgument
      | some pos =>
        match extractLine maxLen buf1 pos with
        | .error e => .error e
        | .ok (line, buf2) => .ok (line, buf2, net1)

/-- Embedding of `dialog::read_exactly` (dialog.hpp 172-217): zero bytes
complete immediately; a buffer already holding `n` bytes is consumed
without a network read; otherwise exactly the missing bytes are
transferred from the network (`transfer_exactly`), failing if the stream
cannot deliver them. Returns the bytes, the new buffer, the unread
network bytes and the number of bytes read from the network. -/
def read_exactly (n : Nat) (buf net : Str) :
    Except DialogErr (Str × Str × Str × Nat) :=
  if n = 0 then .ok ([], buf, net, 0)
  else if n ≤ buf.length then .ok (buf.take n, buf.drop n, net, 0)
  else
    let remaining := n - buf.length
    if net.length < remaining then .error .needMoreBytes
    else
      let buf1 := buf ++ net.take remaining
      .ok (buf1.take n, buf1.drop n, net.drop remaining, remaining)

/- ------------------------------------------------------------------ -/
/- POP3 engine: parse_status and retr (pop3/client.hpp)                -/
/- ------------------------------------------------------------------ -/

/-- Errors thrown by the POP3 client, plus `needMore` modelling a read
that blocks on an exhausted input. -/
inductive Pop3Err
  | unknownStatus
  | fetchFailure
  | needMore
deriving Repr, DecidableEq

/-- `pop3_base::parse_status` (pop3/client.hpp 79-87): the token before
the first space must be `+OK` or `-ERR`; the rest (after the space) is
the message. -/
def parse_status (line : Str) : Except Pop3Err (Str × Str) :=
  let status := line.takeWhile (· ≠ ' ')
  let rest := (line.dropWhile (· ≠ ' ')).drop 1
  if status = "+OK".data ∨ status = "-ERR".data then .ok (status, rest)
  else .error .unknownStatus

/-- The accumulation loop of `pop3::retr` (pop3/client.hpp 223-233):
stop at the terminator line `.` (not accumulated); strip exactly one
leading `.` from any line that starts with `.`; re-terminate every
accumulated line with CRLF. -/
def pop3RetrBody : List Str → Except Pop3Err Str
  | [] => .error .needMore
  | line :: rest =>
    if line = ['.'] then .ok []
    else
      let l := if line ≠ [] ∧ line.head? = some '.' then line.drop 1 else line
      match pop3RetrBody rest with
      | .ok acc => .ok (l ++ crlf ++ acc)
      | .error e => .error e

/-- `pop3::retr` (pop3/client.hpp 218-234) on the server's lines: parse
the status line (requiring `+OK`), then accumulate the dot-stuffed
payload until the terminator. -/
def pop3_retr (input : List Str) : Except Pop3Err Str :=
  match input with
  | [] => .error .needMore
  | statusLine :: rest =>
    match parse_status statusLine with
    | .error e => .error e
    | .ok (status, _) =>
      if status = "+OK".data then pop3RetrBody rest
      else .error .fetchFailure

/-- Spec-side per-line transform: one leading dot stripped, CRLF
re-appended. -/
def stripDotCRLF (l : Str) : Str :=
  (if l ≠ [] ∧ l.head? = some '.' then l.drop 1 else l) ++ crlf

theorem drop_length_sub_two_append (s : Str) :
    (s ++ crlf).drop ((s ++ crlf).length - 2) = crlf := by
  have h : (s ++ crlf).length - 2 = s.length := by
    simp [crlf]
  rw [h]
  exact List.drop_left s crlf

theorem ends_crlf_append (s : Str) : endsWithCRLF (s ++ crlf) :=
  ⟨by simp [crlf], drop_length_sub_two_append s⟩

theorem normalize_ends_crlf (s : Str) : endsWithCRLF (normalize_line s) := by
  unfold normalize_line
  by_cases h1 : 2 ≤ s.length ∧ s.drop (s.length - 2) = crlf
  · rw [if_pos h1]; exact h1
  · rw [if_neg h1]
    by_cases h2 : s ≠ [] ∧ s.getLast? = some '\n'
    · rw [if_pos h2]; exact ends_crlf_append _
    · rw [if_neg h2]
      by_cases h3 : s ≠ [] ∧ s.getLast? = some '\r'
      · rw [if_pos h3]
        have heq : s ++ ['\n'] = s.dropLast ++ crlf := by
          obtain ⟨hne, hlast⟩ := h3
          conv_lhs => rw [← List.dropLast_append_getLast? '\r' hlast]
          simp [crlf]
        rw [heq]; exact ends_crlf_append _
      · rw [if_neg h3]; exact ends_crlf_append _

theorem normalize_of_ends_crlf {s : Str} (h : endsWithCRLF s) :
    normalize_line s = s := by
  unfold endsWithCRLF at h
  unfold normalize_line
  rw [if_pos h]

theorem normalize_eq_spec (s : Str) : normalize_line s = normalizeSpec s := by
  unfold normalize_line normalizeSpec endsWithCRLF
  by_cases h1 : 2 ≤ s.length ∧ s.drop (s.length - 2) = crlf
  · rw [if_pos h1, if_pos h1]
  · rw [if_neg h1, if_neg h1]
    by_cases hn : s.getLast? = some '\n'
    · have hne : s ≠ [] := by
        intro he; rw [he] at hn; simp at hn
      rw [if_pos ⟨hne, hn⟩, if_pos hn]
    · have h2 : ¬(s ≠ [] ∧ s.getLast? = some '\n') := by
        intro ⟨_, hc⟩; exact hn hc
      rw [if_neg h2, if_neg hn]
      by_cases hr : s.getLast? = some '\r'
      · have hne : s ≠ [] := by
          intro he; rw [he] at hr; simp at hr
        rw [if_pos ⟨hne, hr⟩, if_pos hr]
      · have h3 : ¬(s ≠ [] ∧ s.getLast? = some '\r') := by
          intro ⟨_, hc⟩; exact hr hc
        rw [if_neg h3, if_neg hr]

/-- C5: the dialog's line normalization obeys the four CRLF rules (a string
ending in CRLF is sent unchanged; a lone trailing LF is replaced by CRLF; a
lone trailing CR gets an LF appended; otherwise CRLF is appended), and
normalization is idempotent, so `write_line (normalize s)` puts the same
bytes on the wire as `write_line s`. -/
theorem dialog_write_line_crlf_normalization_idempotent (s : Str) :
    normalize_line s = normalizeSpec s ∧
    normalize_line (normalize_line s) = normalize_line s :=
  ⟨normalize_eq_spec s, normalize_of_ends_crlf (normalize_ends_crlf s)⟩

theorem readReplyLoop_mismatch (l : Str) (rest : List Str) (c : Nat)
    (hc : c ≠ 0)
    (hl : ∃ c2 last t, parseReplyLine l = .ok (c2, last, t) ∧ c2 ≠ c) :
    ∀ (pre : List Str) (acc : List Str),
      (∀ p ∈ pre, ∃ t, parseReplyLine p = .ok (c, false, t)) →
      readReplyLoop c acc (pre ++ l :: rest) = .error .parseFailure := by
  intro pre
  induction pre with
  | nil =>
    intro acc _
    obtain ⟨c2, last, t, hp, hne⟩ := hl
    have hcc : ¬(c = c2) := fun h => hne h.symm
    simp [readReplyLoop, hp, hc, hcc]
  | cons p ps ih =>
    intro acc hpre
    obtain ⟨t, hp⟩ := hpre p (List.mem_cons_self p ps)
    have step : readReplyLoop c acc ((p :: ps) ++ l :: rest) =
        readReplyLoop c (acc ++ [t]) (ps ++ l :: rest) := by
      simp [readReplyLoop, hp, hc]
    rw [step]
    exact ih (acc ++ [t]) (fun q hq => hpre q (List.mem_cons_of_mem p hq))

theorem readReplyLoop_success_codes :
    ∀ (input : List Str) (status : Nat) (acc : List Str) (rep : Reply)
      (rest : List Str),
      status ≠ 0 →
      readReplyLoop status acc input = .ok (rep, rest) →
      rep.status = status ∧
      ∃ consumed, input = consumed ++ rest ∧
        ∀ p ∈ consumed, lineCode p = some status := by
  intro input
  induction input with
  | nil =>
    intro status acc rep rest h0 h
    simp [readReplyLoop] at h
  | cons line ls ih =>
    intro status acc rep rest h0 h
    unfold readReplyLoop at h
    cases hp : parseReplyLine line with
    | error e => rw [hp] at h; exact absurd h (by simp)
    | ok tr =>
      obtain ⟨code, last, text⟩ := tr
      rw [hp] at h
      simp only [if_neg h0] at h
      by_cases hcode : status = code
      · rw [if_pos hcode] at h
        cases last with
        | true =>
          simp only [if_pos rfl] at h
          obtain ⟨hrep, hrest⟩ := by
            simpa using h
          refine ⟨by rw [← hrep], [line], by simp [hrest], ?_⟩
          intro p hp2
          have : p = line := by simpa using hp2
          subst this
          simp [lineCode, hp, hcode]
        | false =>
          simp only [Bool.false_eq_true, if_false] at h
          obtain ⟨hst, consumed, hcons, hcodes⟩ := ih status (acc ++ [text]) rep rest h0 h
          refine ⟨hst, line :: consumed, by simp [hcons], ?_⟩
          intro p hp2
          rcases List.mem_cons.mp hp2 with h1 | h1
          · subst h1; simp [lineCode, hp, hcode]
          · exact hcodes p h1
      · rw [if_neg hcode] at h
        exact absurd h (by simp)

/-- C2 (amended): the SMTP reply parser rejects with `parse_failure` any
line shorter than three characters, any non-digit among positions 0-2, and
any fourth character other than space or dash; when the initial line's
three-digit code is nonzero, a continuation line with a different code is a
`parse_failure`, and on success every consumed line carries the reply's
single status code. (The amendment restricts the code-coherence parts to a
nonzero initial code: the parser uses status 0 as an "unset" sentinel, so a
reply starting with code 000 adopts a later line's different code instead
of failing, as the counterexample shows.) -/
theorem smtp_reply_parser_grammar_and_code_coherence :
    (∀ (l : Str) (rest : List Str), l.length < 3 →
      readReply (l :: rest) = .error .parseFailure) ∧
    (∀ (c0 c1 c2 : Char) (t : Str) (rest : List Str),
      ¬(c0.isDigit ∧ c1.isDigit ∧ c2.isDigit) →
      readReply ((c0 :: c1 :: c2 :: t) :: rest) = .error .parseFailure) ∧
    (∀ (c0 c1 c2 c3 : Char) (t : Str) (rest : List Str),
      c3 ≠ '-' → c3 ≠ ' ' →
      readReply ((c0 :: c1 :: c2 :: c3 :: t) :: rest) = .error .parseFailure) ∧
    (∀ (pre : List Str) (l : Str) (rest : List Str) (c : Nat),
      c ≠ 0 → pre ≠ [] →
      (∀ p ∈ pre, ∃ t, parseReplyLine p = .ok (c, false, t)) →
      (∃ c2 last t, parseReplyLine l = .ok (c2, last, t) ∧ c2 ≠ c) →
      readReply (pre ++ l :: rest) = .error .parseFailure) ∧
    (∀ (l : Str) (ls rest : List Str) (rep : Reply) (c : Nat),
      readReply (l :: ls) = .ok (rep, rest) → lineCode l = some c → c ≠ 0 →
      rep.status = c ∧ ∃ consumed, l :: ls = consumed ++ rest ∧
        ∀ p ∈ consumed, lineCode p = some c) := by
  refine ⟨?short, ?nondigit, ?fourth, ?mismatch, ?success⟩
  case short =>
    intro l rest h
    rcases l with _ | ⟨a, _ | ⟨b, _ | ⟨c, t⟩⟩⟩
    · simp [readReply, readReplyLoop, parseReplyLine]
    · simp [readReply, readReplyLoop, parseReplyLine]
    · simp [readReply, readReplyLoop, parseReplyLine]
    · simp at h; omega
  case nondigit =>
    intro c0 c1 c2 t rest h
    simp [readReply, readReplyLoop, parseReplyLine, h]
  case fourth =>
    intro c0 c1 c2 c3 t rest h1 h2
    by_cases hd : c0.isDigit ∧ c1.isDigit ∧ c2.isDigit
    · simp [readReply, readReplyLoop, parseReplyLine, hd, h1, h2]
    · simp [readReply, readReplyLoop, parseReplyLine, hd]
  case mismatch =>
    intro pre l rest c hc hne hpre hl
    rcases pre with _ | ⟨p, ps⟩
    · exact absurd rfl hne
    · obtain ⟨t, hp⟩ := hpre p (List.mem_cons_self p ps)
      have step : readReply ((p :: ps) ++ l :: rest) =
          readReplyLoop c [t] (ps ++ l :: rest) := by
        simp [readReply, readReplyLoop, hp]
      rw [step]
      exact readReplyLoop_mismatch l rest c hc hl ps [t]
        (fun q hq => hpre q (List.mem_cons_of_mem p hq))
  case success =>
    intro l ls rest rep c h hcode hc
    obtain ⟨last, t, hp⟩ : ∃ last t, parseReplyLine l = .ok (c, last, t) := by
      unfold lineCode at hcode
      cases hq : parseReplyLine l with
      | error e => rw [hq] at hcode; simp at hcode
      | ok tr =>
        obtain ⟨c2, last, t⟩ := tr
        rw [hq] at hcode
        simp at hcode
        subst hcode
        exact ⟨last, t, rfl⟩
    unfold readReply readReplyLoop at h
    rw [hp] at h
    simp only [if_pos rfl] at h
    cases last with
    | true =>
      simp only [if_pos rfl] at h
      obtain ⟨hrep, hrest⟩ := by simpa using h
      refine ⟨by rw [← hrep], [l], by simp [hrest], ?_⟩
      intro p hp2
      have : p = l := by simpa using hp2
      subst this
      simp [lineCode, hp]
    | false =>
      simp only [Bool.false_eq_true, if_false] at h
      obtain ⟨hst, consumed, hcons, hcodes⟩ :=
        readReplyLoop_success_codes ls c [t] rep rest hc h
      refine ⟨hst, l :: consumed, by simp [hcons], ?_⟩
      intro p hp2
      rcases List.mem_cons.mp hp2 with h1 | h1
      · subst h1; simp [lineCode, hp]
      · exact hcodes p h1

/-- C2 counterexample: a continuation line with code 000 followed by a
final line with the different code 100 is accepted by `read_reply` (the
status-0 sentinel treats the initial code as "unset"), instead of failing
with `parse_failure`; the returned status 100 differs from the first
consumed line's code 0. -/
theorem smtp_reply_parser_zero_code_mismatch_accepted :
    readReply ["000-x".data, "100 y".data] =
      .ok (⟨100, ["x".data, "y".data]⟩, []) ∧
    lineCode "000-x".data = some 0 :=
  ⟨rfl, rfl⟩

/-- Closed instances of `smtp_reply_parser_grammar_and_code_coherence`. -/
theorem smtp_reply_parser_grammar_witness :
    readReply ["25".data] = .error .parseFailure ∧
    readReply ["2a0 x".data] = .error .parseFailure ∧
    readReply ["250?x".data] = .error .parseFailure ∧
    readReply (["250-a".data] ++ "251 b".data :: []) = .error .parseFailure ∧
    ((Reply.mk 250 ["a".data, "b".data]).status = 250 ∧
      ∃ consumed, ["250-a".data, "250 b".data] = consumed ++ ([] : List Str) ∧
        ∀ p ∈ consumed, lineCode p = some 250) := by
  obtain ⟨h1, h2, h3, h4, h5⟩ := smtp_reply_parser_grammar_and_code_coherence
  refine ⟨h1 "25".data [] (by decide), ?_, ?_, ?_, ?_⟩
  · have := h2 '2' 'a' '0' " x".data [] (by decide)
    simpa using this
  · have := h3 '2' '5' '0' '?' "x".data [] (by decide) (by decide)
    simpa using this
  · exact h4 ["250-a".data] "251 b".data [] 250 (by decide) (by decide)
      (by intro p hp; simp at hp; subst hp; exact ⟨"a".data, by rfl⟩)
      ⟨251, true, "b".data, by rfl, by decide⟩
  · exact h5 "250-a".data ["250 b".data] [] ⟨250, ["a".data, "b".data]⟩ 250
      rfl rfl (by decide)

/-- C4 counterexample: a single-line EHLO reply with the lone greeting
line "smtp.example.com ESMTP" yields a capability map with one entry
(the greeting parsed as a capability), not the empty map the claim
states. -/
theorem smtp_single_line_ehlo_reply_parsed_as_capability :
    parse_capabilities ⟨250, ["smtp.example.com ESMTP".data]⟩ =
      [("SMTP.EXAMPLE.COM".data, ["ESMTP".data])] ∧
    parse_capabilities ⟨250, ["smtp.example.com ESMTP".data]⟩ ≠ [] :=
  ⟨rfl, by decide⟩

/-- C4 (amended): capability parsing of a single-line EHLO reply produces
no error, but the map is empty only when the line is empty: the lone line
is parsed as a capability entry mapping its first whitespace-delimited
token (uppercased) to the remaining tokens. The greeting is skipped only
when the reply has more than one line and its first line contains no
space. -/
theorem smtp_parse_capabilities_single_line (status : Nat) (l : Str) :
    parse_capabilities ⟨status, [l]⟩ =
      if l = [] then [] else [(capKey l, capParams l)] := by
  by_cases h : l = []
  · subst h
    simp [parse_capabilities, parseCapsLines]
  · simp [parse_capabilities, parseCapsLines, h, capInsert]

theorem streamStartTls_isTls (s : StreamSt) :
    ((streamStartTls s).1).isTls = true := by
  cases s <;> rfl

/-- C1: code-bug evidence. The auth policy gate itself, given
`require_tls_for_auth = true`, `allow_cleartext_auth = false` and a
non-TLS stream, demands TLS ("TLS required for authentication") -- but
`smtp::client::authenticate` never consults it (the SMTP client holds no
auth options at all): on a connected non-TLS session both AUTH PLAIN and
AUTH LOGIN put the Base64 credentials on the wire and succeed. The AUTH
LOGIN trace matches the spec's end-to-end example 3. -/
theorem smtp_authenticate_bypasses_auth_policy_gate :
    ensure_auth_allowed false ⟨true, false⟩ = .tlsRequired ∧
    (connectedPlain.dialog.map (fun d => d.stream.isTls)) = some false ∧
    smtp_authenticate connectedPlain "user".data "pass".data .plain
        ["235 ok".data] =
      ⟨.ok (), connectedPlain, ["AUTH PLAIN AHVzZXIAcGFzcw==\r\n".data], []⟩ ∧
    smtp_authenticate connectedPlain "user".data "pass".data .login
        ["334 VXNlcm5hbWU6".data, "334 UGFzc3dvcmQ6".data, "235 ok".data] =
      ⟨.ok (), connectedPlain,
        ["AUTH LOGIN\r\n".data, "dXNlcg==\r\n".data, "cGFzcw==\r\n".data], []⟩ :=
  ⟨rfl, rfl, rfl, rfl⟩

/-- C3 counterexample: when both the EHLO and the HELO replies are
rejections, `ehlo` throws initial_rejection before reaching the
`capabilities_.entries.clear()` statement, so a previously stored
capability set is NOT empty after the failed call, contrary to the
claim. -/
theorem smtp_ehlo_double_failure_keeps_capabilities :
    (smtp_ehlo connectedWithCaps "client.local".data
        ["500 no".data, "500 still no".data]).result = .error .initialRejection ∧
    (smtp_ehlo connectedWithCaps "client.local".data
        ["500 no".data, "500 still no".data]).state.caps =
      [("SIZE".data, ["35882577".data])] ∧
    [("SIZE".data, ["35882577".data])] ≠ ([] : CapMap) :=
  ⟨rfl, rfl, by decide⟩

/-- C3 (amended): when the EHLO reply is not 2xx the client retries with
exactly one HELO command; if the HELO reply is also not 2xx, `ehlo` fails
with initial_rejection and leaves the whole client state -- in particular
the stored capability set -- unchanged (the clear is unreachable on the
failure path); if HELO succeeds, the capability set is cleared and the
HELO reply is returned. -/
theorem smtp_ehlo_helo_fallback (st : ClientState) (d : DialogSt) (name : Str)
    (input rest1 rest2 : List Str) (rep1 rep2 : Reply)
    (hd : st.dialog = some d)
    (h1 : readReply input = .ok (rep1, rest1))
    (hn1 : rep1.isPositiveCompletion = false)
    (h2 : readReply rest1 = .ok (rep2, rest2)) :
    (rep2.isPositiveCompletion = false →
      smtp_ehlo st name input =
        ⟨.error .initialRejection, st,
          [normalize_line ("EHLO ".data ++ name),
           normalize_line ("HELO ".data ++ name)], rest2⟩) ∧
    (rep2.isPositiveCompletion = true →
      smtp_ehlo st name input =
        ⟨.ok rep2, { st with caps := [] },
          [normalize_line ("EHLO ".data ++ name),
           normalize_line ("HELO ".data ++ name)], rest2⟩) := by
  constructor <;> intro hres <;> simp [smtp_ehlo, hd, h1, hn1, h2, hres]

/-- Closed instance of `smtp_ehlo_helo_fallback`: EHLO rejected, HELO
accepted; the capability set is cleared and the HELO reply returned. -/
theorem smtp_ehlo_helo_fallback_witness :
    smtp_ehlo connectedWithCaps "client.local".data
        ["500 a".data, "250 ok".data] =
      ⟨.ok ⟨250, ["ok".data]⟩, { connectedWithCaps with caps := [] },
        [normalize_line ("EHLO ".data ++ "client.local".data),
         normalize_line ("HELO ".data ++ "client.local".data)], []⟩ :=
  (smtp_ehlo_helo_fallback connectedWithCaps ⟨.plain, 8192, none⟩
      "client.local".data ["500 a".data, "250 ok".data] ["250 ok".data] []
      ⟨500, ["a".data]⟩ ⟨250, ["ok".data]⟩ rfl rfl rfl rfl).2 rfl

/-- C9: after a successful SMTP `start_tls` (status 220, handshake
succeeded), `is_tls()` is true, the stored remote host and capability set
are unchanged, and the replacement dialog keeps the replaced dialog's max
line length and timeout; and the stream-level `start_tls` is a no-op when
the TLS variant is already active. -/
theorem smtp_start_tls_success_upgrades_preserving_state
    (st : ClientState) (d : DialogSt) (sni : Str) (input rest : List Str)
    (rep : Reply)
    (hd : st.dialog = some d)
    (h : readReply input = .ok (rep, rest))
    (h220 : rep.status = 220) :
    (∃ d2, (smtp_start_tls st sni input).state.dialog = some d2 ∧
      d2.stream.isTls = true ∧ d2.maxLen = d.maxLen ∧ d2.timeout = d.timeout) ∧
    (smtp_start_tls st sni input).state.remoteHost = st.remoteHost ∧
    (smtp_start_tls st sni input).state.caps = st.caps ∧
    (smtp_start_tls st sni input).result = .ok () ∧
    streamStartTls .tls = (.tls, false) := by
  have hout : smtp_start_tls st sni input =
      ⟨.ok (), { st with dialog := some (DialogSt.mk (streamStartTls d.stream).1 d.maxLen d.timeout) },
        [normalize_line "STARTTLS".data], rest⟩ := by
    simp [smtp_start_tls, hd, h, h220]
  rw [hout]
  exact ⟨⟨⟨(streamStartTls d.stream).1, d.maxLen, d.timeout⟩, rfl,
    streamStartTls_isTls d.stream, rfl, rfl⟩, rfl, rfl, rfl, rfl⟩

/-- Closed instance of
`smtp_start_tls_success_upgrades_preserving_state` on a concrete plain
connected state and a concrete 220 reply. -/
theorem smtp_start_tls_success_witness :
    (∃ d2, (smtp_start_tls connectedPlain [] ["220 go".data]).state.dialog =
        some d2 ∧ d2.stream.isTls = true ∧ d2.maxLen = 8192 ∧
        d2.timeout = none) ∧
    (smtp_start_tls connectedPlain [] ["220 go".data]).state.remoteHost =
      connectedPlain.remoteHost ∧
    (smtp_start_tls connectedPlain [] ["220 go".data]).state.caps =
      connectedPlain.caps ∧
    (smtp_start_tls connectedPlain [] ["220 go".data]).result = .ok () ∧
    streamStartTls .tls = (.tls, false) :=
  smtp_start_tls_success_upgrades_preserving_state connectedPlain
    ⟨.plain, 8192, none⟩ [] ["220 go".data] [] ⟨220, ["go".data]⟩ rfl rfl rfl

/-- C10 (amended): every SMTP operation that uses the dialog, invoked
before `connect` has succeeded, fails with a thrown error, writes nothing
to the wire, and leaves the whole client state (capability set, remote
host) unchanged. All of them fail with 'Connection is not established.'
except `send`, which validates sender and recipients first and fails with
'Mail sender is missing.' or 'No recipients.' when that validation fails;
for a message with a resolvable sender and nonempty recipient set `send`
also fails with 'Connection is not established.'. -/
theorem smtp_ops_before_connect_fail_cleanly
    (st : ClientState) (hd : st.dialog = none)
    (name sni u p : Str) (m : AuthMethod) (msg : Message) (env : Envelope)
    (input : List Str) :
    smtp_read_greeting st input = ⟨.error .connectionNotEstablished, st, [], input⟩ ∧
    smtp_ehlo st name input = ⟨.error .connectionNotEstablished, st, [], input⟩ ∧
    smtp_start_tls st sni input = ⟨.error .connectionNotEstablished, st, [], input⟩ ∧
    smtp_authenticate st u p m input = ⟨.error .connectionNotEstablished, st, [], input⟩ ∧
    smtp_noop st input = ⟨.error .connectionNotEstablished, st, [], input⟩ ∧
    smtp_rset st input = ⟨.error .connectionNotEstablished, st, [], input⟩ ∧
    smtp_quit st input = ⟨.error .connectionNotEstablished, st, [], input⟩ ∧
    ((smtp_send st msg env input).state = st ∧
     (smtp_send st msg env input).written = [] ∧
     (smtp_send st msg env input).remaining = input ∧
     ∃ e, (smtp_send st msg env input).result = .error e ∧
       (e = .mailSenderMissing ∨ e = .noRecipients ∨
        e = .connectionNotEstablished)) ∧
    (sendMailFrom msg env ≠ [] → sendRecipients msg env ≠ [] →
      smtp_send st msg env input =
        ⟨.error .connectionNotEstablished, st, [], input⟩) := by
  refine ⟨?_, ?_, ?_, ?_, ?_, ?_, ?_, ?_, ?_⟩
  · simp [smtp_read_greeting, hd]
  · simp [smtp_ehlo, hd]
  · simp [smtp_start_tls, hd]
  · cases m <;>
      simp [smtp_authenticate, smtp_authenticate_plain, smtp_authenticate_login, hd]
  · simp [smtp_noop, smtp_simple_command, hd]
  · simp [smtp_rset, smtp_simple_command, hd]
  · simp [smtp_quit, smtp_simple_command, hd]
  · by_cases hmf : sendMailFrom msg env = []
    · simp [smtp_send, hmf]
    · by_cases hrc : sendRecipients msg env = []
      · simp [smtp_send, hmf, hrc]
      · simp [smtp_send, hmf, hrc, hd]
  · intro hmf hrc
    simp [smtp_send, hmf, hrc, hd]

/-- C10 counterexample: `send` invoked before connect with a message that
has no sender fails with 'Mail sender is missing.', not 'Connection is
not established.' (state still unchanged and nothing written). -/
theorem smtp_send_before_connect_sender_error :
    smtp_send noConnState emptyMessage emptyEnvelope [] =
      ⟨.error .mailSenderMissing, noConnState, [], []⟩ ∧
    SmtpErr.mailSenderMissing ≠ SmtpErr.connectionNotEstablished :=
  ⟨rfl, by decide⟩

/-- Closed instance of `smtp_ops_before_connect_fail_cleanly` on an
unconnected state, including `send` with a valid message. -/
theorem smtp_ops_before_connect_witness :
    smtp_read_greeting noConnState [] =
      ⟨.error .connectionNotEstablished, noConnState, [], []⟩ ∧
    smtp_send noConnState validMessage emptyEnvelope [] =
      ⟨.error .connectionNotEstablished, noConnState, [], []⟩ := by
  obtain ⟨hg, -, -, -, -, -, -, -, hsend⟩ :=
    smtp_ops_before_connect_fail_cleanly noConnState rfl [] [] [] []
      .plain validMessage emptyEnvelope []
  exact ⟨hg, hsend (by decide) (by decide)⟩

theorem pop3RetrBody_terminator (rest : List Str) :
    ∀ payload, ['.'] ∉ payload →
      pop3RetrBody (payload ++ ['.'] :: rest) =
        .ok ((payload.map stripDotCRLF).flatten) := by
  intro payload
  induction payload with
  | nil => intro _; simp [pop3RetrBody]
  | cons l ps ih =>
    intro hp
    have hl : ¬(l = ['.']) := by
      intro he; exact hp (by simp [he])
    have hps : ['.'] ∉ ps := by
      intro he; exact hp (List.mem_cons_of_mem l he)
    rw [List.cons_append]
    unfold pop3RetrBody
    rw [if_neg hl, ih hps]
    simp [stripDotCRLF]

/-- C7: the POP3 `retr` payload read accumulates lines until the bare
`.` terminator (excluded from the result), strips exactly one leading
`.` from every payload line that begins with one, and re-terminates
every accumulated line with CRLF. -/
theorem pop3_retr_dot_stuffed_payload (t : Str) (payload rest : List Str)
    (hp : ['.'] ∉ payload) :
    pop3_retr (('+' :: 'O' :: 'K' :: ' ' :: t) :: payload ++ ['.'] :: rest) =
      .ok ((payload.map stripDotCRLF).flatten) := by
  have hst : parse_status ('+' :: 'O' :: 'K' :: ' ' :: t) = .ok ("+OK".data, t) := by
    simp [parse_status, List.takeWhile, List.dropWhile]
  have key : ∀ ls, pop3_retr (('+' :: 'O' :: 'K' :: ' ' :: t) :: ls) =
      pop3RetrBody ls := by
    intro ls
    simp [pop3_retr, hst]
  rw [List.cons_append, key]
  exact pop3RetrBody_terminator rest payload hp

/-- Closed instance of `pop3_retr_dot_stuffed_payload`: the spec's
end-to-end POP3 RETR example. The server sends
`+OK 12 octets`, `Hello`, `..dotline`, `.`; retr returns
`"Hello\r\n.dotline\r\n"`. -/
theorem pop3_retr_example_witness :
    pop3_retr ["+OK 12 octets".data, "Hello".data, "..dotline".data,
      ['.']] = .ok "Hello\r\n.dotline\r\n".data := by
  have h := pop3_retr_dot_stuffed_payload "12 octets".data
    ["Hello".data, "..dotline".data] [] (by decide)
  exact h.trans (by rfl)

/-- C8: `read_exactly n` returns exactly `n` bytes, consuming
already-buffered bytes before reading only the missing bytes from the
network; `n = 0` completes immediately with the empty string and no
network read. -/
theorem dialog_read_exactly_buffered_first :
    (∀ buf net, read_exactly 0 buf net = .ok ([], buf, net, 0)) ∧
    (∀ n buf net out buf2 net2 k,
      read_exactly n buf net = .ok (out, buf2, net2, k) →
      out.length = n ∧
      out = buf.take n ++ net.take (n - buf.length) ∧
      k = n - min n buf.length ∧
      (n ≤ buf.length → k = 0) ∧
      net2 = net.drop k) := by
  constructor
  · intro buf net
    simp [read_exactly]
  · intro n buf net out buf2 net2 k h
    unfold read_exactly at h
    by_cases h0 : n = 0
    · rw [if_pos h0] at h
      simp only [Except.ok.injEq, Prod.mk.injEq] at h
      obtain ⟨ho, hb, hn, hk⟩ := h
      subst h0; subst ho; subst hb; subst hn; subst hk
      simp
    · rw [if_neg h0] at h
      by_cases hb : n ≤ buf.length
      · rw [if_pos hb] at h
        simp only [Except.ok.injEq, Prod.mk.injEq] at h
        obtain ⟨ho, hbb, hn, hk⟩ := h
        subst ho; subst hbb; subst hn; subst hk
        have hsub : n - buf.length = 0 := by omega
        refine ⟨?_, ?_, ?_, ?_, ?_⟩
        · simp only [List.length_take]
          omega
        · rw [hsub]
          simp
        · rw [Nat.min_eq_left hb]
          omega
        · intro _
          rfl
        · simp
      · rw [if_neg hb] at h
        by_cases hnet : net.length < n - buf.length
        · rw [if_pos hnet] at h
          exact absurd h (by simp)
        · rw [if_neg hnet] at h
          simp only [Except.ok.injEq, Prod.mk.injEq] at h
          obtain ⟨ho, hbb, hn, hk⟩ := h
          subst ho; subst hbb; subst hn; subst hk
          have hlen1 : (buf ++ net.take (n - buf.length)).length = n := by
            simp only [List.length_append, List.length_take]
            omega
          have htk : (buf ++ net.take (n - buf.length)).take n =
              buf ++ net.take (n - buf.length) :=
            List.take_of_length_le (le_of_eq hlen1)
          refine ⟨?_, ?_, ?_, ?_, ?_⟩
          · rw [htk, hlen1]
          · rw [htk, List.take_of_length_le (by omega : buf.length ≤ n)]
          · rw [Nat.min_eq_right (by omega : buf.length ≤ n)]
          · intro hc
            exact absurd hc hb
          · rfl

/-- Closed instance of `dialog_read_exactly_buffered_first`: zero-length
read, and a 4-byte read that consumes 2 buffered bytes before 2 network
bytes. -/
theorem dialog_read_exactly_witness :
    read_exactly 0 "xy".data "z".data = .ok ([], "xy".data, "z".data, 0) ∧
    ("abcd".data.length = 4 ∧
     "abcd".data = "ab".data.take 4 ++ "cdef".data.take (4 - "ab".data.length) ∧
     2 = 4 - min 4 "ab".data.length ∧
     (4 ≤ "ab".data.length → 2 = 0) ∧
     "ef".data = "cdef".data.drop 2) := by
  obtain ⟨h0, h⟩ := dialog_read_exactly_buffered_first
  exact ⟨h0 "xy".data "z".data,
    h 4 "ab".data "cdef".data "abcd".data [] "ef".data 2 (by rfl)⟩

/- ------------------------------------------------------------------ -/
/- read_line lemmas (claim C6)                                         -/
/- ------------------------------------------------------------------ -/

theorem take_append_len (a b : Str) (n : Nat) :
    (a ++ b).take (a.length + n) = a ++ b.take n := by
  induction a with
  | nil => simp
  | cons c t ih =>
    simp only [List.cons_append, List.length_cons, Nat.succ_add,
      List.take_succ_cons, ih]

theorem drop_append_len (a b : Str) (n : Nat) :
    (a ++ b).drop (a.length + n) = b.drop n := by
  induction a with
  | nil => simp
  | cons c t ih =>
    simp only [List.cons_append, List.length_cons, Nat.succ_add,
      List.drop_succ_cons, ih]

theorem findLF_append_of_none {a : Str} (b : Str) (ha : findLF a = none) :
    findLF (a ++ b) = (findLF b).map (· + a.length) := by
  induction a with
  | nil =>
    cases hb : findLF b <;> simp [hb]
  | cons c t ih =>
    have hc : ¬(c = '\n') := by
      intro h
      rw [findLF, if_pos h] at ha
      exact Option.noConfusion ha
    have ht : findLF t = none := by
      rw [findLF, if_neg hc] at ha
      cases hft : findLF t with
      | none => rfl
      | some k => rw [hft] at ha; simp at ha
    rw [List.cons_append, findLF, if_neg hc, ih ht]
    cases hb : findLF b <;> simp [hb, Nat.add_assoc]

theorem findLF_split : ∀ (s : Str) (pos : Nat), findLF s = some pos →
    s.take pos ++ '\n' :: s.drop (pos + 1) = s ∧
    findLF (s.take pos) = none ∧ pos < s.length := by
  intro s
  induction s with
  | nil => intro pos h; simp [findLF] at h
  | cons c t ih =>
    intro pos h
    by_cases hc : c = '\n'
    · rw [findLF, if_pos hc] at h
      obtain rfl : (0 : Nat) = pos := Option.some.inj h
      subst hc
      refine ⟨by simp, by simp [findLF], by simp⟩
    · rw [findLF, if_neg hc] at h
      cases hft : findLF t with
      | none => rw [hft] at h; simp at h
      | some k =>
        rw [hft] at h
        have h3 : some (k + 1) = some pos := h
        obtain rfl : k + 1 = pos := Option.some.inj h3
        obtain ⟨ht1, ht2, ht3⟩ := ih k hft
        refine ⟨?_, ?_, ?_⟩
        · rw [List.take_succ_cons, List.drop_succ_cons, List.cons_append,
            ht1]
        · rw [List.take_succ_cons, findLF, if_neg hc, ht2]
          rfl
        · simp only [List.length_cons]
          omega

theorem findLF_none_take {s : Str} (h : findLF s = none) (k : Nat) :
    findLF (s.take k) = none := by
  induction s generalizing k with
  | nil => simp [List.take_nil, findLF]
  | cons c t ih =>
    have hc : ¬(c = '\n') := by
      intro hcc
      rw [findLF, if_pos hcc] at h
      exact Option.noConfusion h
    have ht : findLF t = none := by
      rw [findLF, if_neg hc] at h
      cases hft : findLF t with
      | none => rfl
      | some m => rw [hft] at h; simp at h
    cases k with
    | zero => simp [findLF]
    | succ k =>
      rw [List.take_succ_cons, findLF, if_neg hc, ih ht k]
      rfl

theorem extractLine_ok (maxLen : Nat) (buf : Str) (pos : Nat) (line buf2 : Str)
    (hf : findLF buf = some pos)
    (h : extractLine maxLen buf pos = .ok (line, buf2)) :
    line.length ≤ maxLen ∧ findLF line = none ∧
    (buf = line ++ '\n' :: buf2 ∨ buf = line ++ '\r' :: '\n' :: buf2) := by
  obtain ⟨hsplit, hnone, hlt⟩ := findLF_split buf pos hf
  simp only [extractLine] at h
  by_cases hcr : 0 < pos ∧ buf.getD (pos - 1) ' ' = '\r'
  · rw [if_pos hcr] at h
    obtain ⟨hpos0, hgd⟩ := hcr
    by_cases hg : maxLen < pos - 1
    · rw [if_pos hg] at h
      exact absurd h (by simp)
    · rw [if_neg hg] at h
      simp only [Except.ok.injEq, Prod.mk.injEq] at h
      obtain ⟨hl, hb2⟩ := h
      subst hl
      subst hb2
      have hp1 : pos - 1 < buf.length := by omega
      have hgd2 : buf.getD (pos - 1) ' ' = '\r' := hgd
      rw [List.getD_eq_getElem?_getD, List.getElem?_eq_getElem hp1] at hgd2
      simp only [Option.getD_some] at hgd2
      have htp : buf.take pos = buf.take (pos - 1) ++ ['\r'] := by
        conv_lhs => rw [show pos = (pos - 1) + 1 by omega]
        rw [List.take_succ, List.getElem?_eq_getElem hp1, hgd2]
        rfl
      refine ⟨?_, ?_, Or.inr ?_⟩
      · simp only [List.length_take]
        exact le_trans (Nat.min_le_left _ _) (by omega)
      · have heq : buf.take (pos - 1) = (buf.take pos).take (pos - 1) := by
          rw [List.take_take]
          congr 1
          omega
        rw [heq]
        exact findLF_none_take hnone _
      · conv_lhs => rw [← hsplit]
        rw [htp]
        simp
  · rw [if_neg hcr] at h
    by_cases hg : maxLen < pos
    · rw [if_pos hg] at h
      exact absurd h (by simp)
    · rw [if_neg hg] at h
      simp only [Except.ok.injEq, Prod.mk.injEq] at h
      obtain ⟨hl, hb2⟩ := h
      subst hl
      subst hb2
      refine ⟨?_, hnone, Or.inl hsplit.symm⟩
      simp only [List.length_take]
      exact le_trans (Nat.min_le_left _ _) (by omega)

theorem read_line_buf_path (maxLen : Nat) (buf net : Str) (pos : Nat)
    (line buf2 : Str)
    (hf : findLF buf = some pos)
    (he : extractLine maxLen buf pos = .ok (line, buf2)) :
    read_line maxLen buf net = .ok (line, buf2, net) := by
  simp only [read_line, hf, he]

theorem read_line_net_path (maxLen : Nat) (buf net buf1 net1 : Str)
    (pos : Nat) (line buf2 : Str)
    (hf : findLF buf = none)
    (hu : readUntilLF (maxLen + 2) buf net = .ok (buf1, net1))
    (hf1 : findLF buf1 = some pos)
    (he : extractLine maxLen buf1 pos = .ok (line, buf2)) :
    read_line maxLen buf net = .ok (line, buf2, net1) := by
  simp only [read_line, hf, hu, hf1, he]

theorem read_line_buf_err (maxLen : Nat) (buf net : Str) (pos : Nat)
    (e : DialogErr)
    (hf : findLF buf = some pos)
    (he : extractLine maxLen buf pos = .error e) :
    read_line maxLen buf net = .error e := by
  simp only [read_line, hf, he]

theorem read_line_net_err (maxLen : Nat) (buf net : Str) (e : DialogErr)
    (hf : findLF buf = none)
    (hu : readUntilLF (maxLen + 2) buf net = .error e) :
    read_line maxLen buf net = .error e := by
  simp only [read_line, hf, hu]

theorem read_line_net_extract_err (maxLen : Nat) (buf net buf1 net1 : Str)
    (pos : Nat) (e : DialogErr)
    (hf : findLF buf = none)
    (hu : readUntilLF (maxLen + 2) buf net = .ok (buf1, net1))
    (hf1 : findLF buf1 = some pos)
    (he : extractLine maxLen buf1 pos = .error e) :
    read_line maxLen buf net = .error e := by
  simp only [read_line, hf, hu, hf1, he]

theorem getD_at_append (a : Str) (c : Char) (tail : Str) :
    (a ++ c :: tail).getD a.length ' ' = c := by
  rw [List.getD_eq_getElem?_getD, List.getElem?_append_right (le_refl _)]
  simp

theorem extractLine_crlf (maxLen : Nat) (a tail : Str)
    (hle : a.length ≤ maxLen) :
    extractLine maxLen (a ++ '\r' :: '\n' :: tail) (a.length + 1) =
      .ok (a, tail) := by
  have hsub : a.length + 1 - 1 = a.length := by omega
  have hc : 0 < a.length + 1 ∧
      (a ++ '\r' :: '\n' :: tail).getD (a.length + 1 - 1) ' ' = '\r' := by
    refine ⟨Nat.succ_pos _, ?_⟩
    rw [hsub]
    exact getD_at_append a '\r' ('\n' :: tail)
  simp only [extractLine]
  rw [if_pos hc, hsub, if_neg (by omega : ¬ maxLen < a.length)]
  rw [List.take_left, show a.length + 1 + 1 = a.length + 2 by omega,
    drop_append_len]
  rfl

theorem extractLine_crlf_over (maxLen : Nat) (a tail : Str)
    (hgt : maxLen < a.length) :
    extractLine maxLen (a ++ '\r' :: '\n' :: tail) (a.length + 1) =
      .error .lineTooLong := by
  have hsub : a.length + 1 - 1 = a.length := by omega
  have hc : 0 < a.length + 1 ∧
      (a ++ '\r' :: '\n' :: tail).getD (a.length + 1 - 1) ' ' = '\r' := by
    refine ⟨Nat.succ_pos _, ?_⟩
    rw [hsub]
    exact getD_at_append a '\r' ('\n' :: tail)
  simp only [extractLine]
  rw [if_pos hc, hsub, if_pos hgt]

theorem extractLine_lf_over (maxLen : Nat) (a tail : Str)
    (hlen : a.length = maxLen + 1) (hlast : a.getLast? ≠ some '\r') :
    extractLine maxLen (a ++ '\n' :: tail) a.length = .error .lineTooLong := by
  have hcond : ¬(0 < a.length ∧
      (a ++ '\n' :: tail).getD (a.length - 1) ' ' = '\r') := by
    rintro ⟨hpos, hgd⟩
    apply hlast
    have hidx : a.length - 1 < a.length := by omega
    rw [List.getD_eq_getElem?_getD, List.getElem?_append_left hidx,
      List.getElem?_eq_getElem hidx] at hgd
    simp only [Option.getD_some] at hgd
    rw [List.getLast?_eq_getElem?, List.getElem?_eq_getElem hidx, hgd]
  simp only [extractLine]
  rw [if_neg hcond, if_pos (by omega : maxLen < a.length)]

theorem readUntil_crlf_fits (maxLen : Nat) (content rest : Str)
    (hno : findLF content = none) (hle : content.length ≤ maxLen) :
    readUntilLF (maxLen + 2) [] (content ++ '\r' :: '\n' :: rest) =
      .ok (content ++ ['\r', '\n'], rest) := by
  have h2 : findLF ('\r' :: '\n' :: rest) = some 1 := by
    rw [findLF, if_neg (by decide), findLF, if_pos rfl]
    rfl
  have hfnet : findLF (content ++ '\r' :: '\n' :: rest) =
      some (1 + content.length) := by
    rw [findLF_append_of_none _ hno, h2]
    rfl
  have hx : ([] : Str).length + (1 + content.length) + 1 ≤ maxLen + 2 := by
    simp only [List.length_nil]
    omega
  have ht : (content ++ '\r' :: '\n' :: rest).take (1 + content.length + 1) =
      content ++ ['\r', '\n'] := by
    rw [show 1 + content.length + 1 = content.length + 2 by omega,
      take_append_len]
    rfl
  have hd : (content ++ '\r' :: '\n' :: rest).drop (1 + content.length + 1) =
      rest := by
    rw [show 1 + content.length + 1 = content.length + 2 by omega,
      drop_append_len]
    rfl
  simp only [readUntilLF, hfnet]
  rw [if_pos hx, List.nil_append, ht, hd]

theorem readUntil_lf_fits (maxLen : Nat) (content rest : Str)
    (hno : findLF content = none) (hle : content.length ≤ maxLen + 1) :
    readUntilLF (maxLen + 2) [] (content ++ '\n' :: rest) =
      .ok (content ++ ['\n'], rest) := by
  have h2 : findLF ('\n' :: rest) = some 0 := by
    rw [findLF, if_pos rfl]
  have hfnet : findLF (content ++ '\n' :: rest) =
      some (0 + content.length) := by
    rw [findLF_append_of_none _ hno, h2]
    rfl
  have hx : ([] : Str).length + (0 + content.length) + 1 ≤ maxLen + 2 := by
    simp only [List.length_nil]
    omega
  have ht : (content ++ '\n' :: rest).take (0 + content.length + 1) =
      content ++ ['\n'] := by
    rw [show 0 + content.length + 1 = content.length + 1 by omega,
      take_append_len]
    rfl
  have hd : (content ++ '\n' :: rest).drop (0 + content.length + 1) =
      rest := by
    rw [show 0 + content.length + 1 = content.length + 1 by omega,
      drop_append_len]
    rfl
  simp only [readUntilLF, hfnet]
  rw [if_pos hx, List.nil_append, ht, hd]

theorem readUntil_crlf_overflow (maxLen : Nat) (content rest : Str)
    (hno : findLF content = none) (hgt : maxLen < content.length) :
    readUntilLF (maxLen + 2) [] (content ++ '\r' :: '\n' :: rest) =
      .error .notFound := by
  have h2 : findLF ('\r' :: '\n' :: rest) = some 1 := by
    rw [findLF, if_neg (by decide), findLF, if_pos rfl]
    rfl
  have hfnet : findLF (content ++ '\r' :: '\n' :: rest) =
      some (1 + content.length) := by
    rw [findLF_append_of_none _ hno, h2]
    rfl
  have hx : ¬(([] : Str).length + (1 + content.length) + 1 ≤ maxLen + 2) := by
    simp only [List.length_nil]
    omega
  simp only [readUntilLF, hfnet]
  rw [if_neg hx]

theorem read_line_exact_max (maxLen : Nat) (content rest : Str)
    (hlen : content.length = maxLen) (hno : findLF content = none) :
    read_line maxLen [] (content ++ '\r' :: '\n' :: rest) =
      .ok (content, [], rest) := by
  have hu := readUntil_crlf_fits maxLen content rest hno (le_of_eq hlen)
  have h2 : findLF ['\r', '\n'] = some 1 := rfl
  have hf1 : findLF (content ++ ['\r', '\n']) = some (content.length + 1) := by
    rw [findLF_append_of_none _ hno, h2]
    simp [Nat.add_comm]
  have he := extractLine_crlf maxLen content [] (le_of_eq hlen)
  exact read_line_net_path maxLen [] _ _ _ _ _ _ rfl hu hf1 he

theorem read_line_one_over_lf (maxLen : Nat) (content rest : Str)
    (hlen : content.length = maxLen + 1) (hno : findLF content = none)
    (hlast : content.getLast? ≠ some '\r') :
    read_line maxLen [] (content ++ '\n' :: rest) = .error .lineTooLong := by
  have hu := readUntil_lf_fits maxLen content rest hno (le_of_eq hlen)
  have h2 : findLF ['\n'] = some 0 := rfl
  have hf1 : findLF (content ++ ['\n']) = some content.length := by
    rw [findLF_append_of_none _ hno, h2]
    simp
  have he := extractLine_lf_over maxLen content [] hlen hlast
  exact read_line_net_extract_err maxLen [] _ _ _ _ _ rfl hu hf1 he

theorem read_line_one_over_crlf (maxLen : Nat) (content rest : Str)
    (hlen : content.length = maxLen + 1) (hno : findLF content = none) :
    read_line maxLen [] (content ++ '\r' :: '\n' :: rest) =
      .error .notFound := by
  have hu := readUntil_crlf_overflow maxLen content rest hno (by omega)
  exact read_line_net_err maxLen [] _ _ rfl hu

theorem read_line_buffered_over (maxLen : Nat) (content tail net : Str)
    (hlen : content.length = maxLen + 1) (hno : findLF content = none) :
    read_line maxLen (content ++ '\r' :: '\n' :: tail) net =
      .error .lineTooLong := by
  have h2 : findLF ('\r' :: '\n' :: tail) = some 1 := by
    rw [findLF, if_neg (by decide), findLF, if_pos rfl]
    rfl
  have hf : findLF (content ++ '\r' :: '\n' :: tail) =
      some (content.length + 1) := by
    rw [findLF_append_of_none _ hno, h2]
    simp [Nat.add_comm]
  have he := extractLine_crlf_over maxLen content tail (by omega)
  exact read_line_buf_err maxLen _ net _ _ hf he

theorem read_line_ok_no_truncation (maxLen : Nat)
    (buf net line buf2 net2 : Str)
    (h : read_line maxLen buf net = .ok (line, buf2, net2)) :
    line.length ≤ maxLen ∧ findLF line = none ∧
    (buf ++ net = line ++ '\n' :: (buf2 ++ net2) ∨
     buf ++ net = line ++ '\r' :: '\n' :: (buf2 ++ net2)) := by
  unfold read_line at h
  split at h
  · rename_i pos hf
    split at h
    · exact absurd h (by simp)
    · rename_i pr l0 b0 he
      simp only [Except.ok.injEq, Prod.mk.injEq] at h
      obtain ⟨h1, h2, h3⟩ := h
      subst h1
      subst h2
      subst h3
      obtain ⟨ha, hb, hc⟩ := extractLine_ok maxLen buf pos _ _ hf he
      refine ⟨ha, hb, ?_⟩
      rcases hc with hc | hc
      · left
        rw [hc]
        simp
      · right
        rw [hc]
        simp
  · rename_i hf
    split at h
    · exact absurd h (by simp)
    · rename_i pr buf1 net1 hu
      have hbn : buf ++ net = buf1 ++ net1 := by
        simp only [readUntilLF] at hu
        split at hu
        · rename_i k hk
          split at hu
          · simp only [Except.ok.injEq, Prod.mk.injEq] at hu
            obtain ⟨hb1, hn1⟩ := hu
            subst hb1
            subst hn1
            rw [List.append_assoc, List.take_append_drop]
          · exact absurd hu (by simp)
        · rename_i hk
          split at hu
          · exact absurd hu (by simp)
          · exact absurd hu (by simp)
      split at h
      · exact absurd h (by simp)
      · rename_i pos hf1
        split at h
        · exact absurd h (by simp)
        · rename_i pr2 l0 b0 he
          simp only [Except.ok.injEq, Prod.mk.injEq] at h
          obtain ⟨h1, h2, h3⟩ := h
          subst h1
          subst h2
          subst h3
          obtain ⟨ha, hb, hc⟩ := extractLine_ok maxLen buf1 pos _ _ hf1 he
          refine ⟨ha, hb, ?_⟩
          rw [hbn]
          rcases hc with hc | hc
          · left
            rw [hc]
            simp
          · right
            rw [hc]
            simp

/-- C6 (amended): an incoming line whose length (excluding the CRLF/LF
terminator) is exactly `max_line_length` succeeds and is returned whole;
a line one byte longer never succeeds — it is never silently truncated —
and fails with `line_too_long` (`message_size`) whenever its LF is
reachable within the capped read buffer (LF-only termination, or the line
already buffered), but with the transport error `not_found` when a
CRLF-terminated over-long line fills the `max_line_length + 2` buffer cap
before its LF arrives; and every successful `read_line` returns a line of
at most `max_line_length` bytes that is exactly the input up to its first
line terminator. -/
theorem dialog_read_line_boundary_and_no_truncation :
    (∀ (maxLen : Nat) (content rest : Str), content.length = maxLen →
      findLF content = none →
      read_line maxLen [] (content ++ '\r' :: '\n' :: rest) =
        .ok (content, [], rest)) ∧
    (∀ (maxLen : Nat) (content rest : Str), content.length = maxLen + 1 →
      findLF content = none → content.getLast? ≠ some '\r' →
      read_line maxLen [] (content ++ '\n' :: rest) =
        .error .lineTooLong) ∧
    (∀ (maxLen : Nat) (content tail net : Str),
      content.length = maxLen + 1 → findLF content = none →
      read_line maxLen (content ++ '\r' :: '\n' :: tail) net =
        .error .lineTooLong) ∧
    (∀ (maxLen : Nat) (content rest : Str), content.length = maxLen + 1 →
      findLF content = none →
      read_line maxLen [] (content ++ '\r' :: '\n' :: rest) =
        .error .notFound) ∧
    (∀ (maxLen : Nat) (buf net line buf2 net2 : Str),
      read_line maxLen buf net = .ok (line, buf2, net2) →
      line.length ≤ maxLen ∧ findLF line = none ∧
      (buf ++ net = line ++ '\n' :: (buf2 ++ net2) ∨
       buf ++ net = line ++ '\r' :: '\n' :: (buf2 ++ net2))) :=
  ⟨read_line_exact_max, read_line_one_over_lf, read_line_buffered_over,
   read_line_one_over_crlf, read_line_ok_no_truncation⟩

/-- C6 counterexample: with `max_line_length = 3` and an empty read
buffer, the CRLF-terminated 4-byte line "abcd" exceeds the
`max_line_length + 2` buffer cap before its LF is seen, so `read_line`
fails with Boost.Asio's `not_found` — an error, but not the claimed
`line_too_long` (`message_size`). -/
theorem dialog_read_line_one_over_crlf_not_line_too_long :
    read_line 3 [] "abcd\r\nx".data = .error .notFound ∧
    DialogErr.notFound ≠ DialogErr.lineTooLong :=
  ⟨rfl, by decide⟩

/-- Closed instances of `dialog_read_line_boundary_and_no_truncation` at
`max_line_length = 3`. -/
theorem dialog_read_line_boundary_witness :
    read_line 3 [] ("abc".data ++ '\r' :: '\n' :: "x".data) =
      .ok ("abc".data, [], "x".data) ∧
    read_line 3 [] ("abcd".data ++ '\n' :: "x".data) =
      .error .lineTooLong ∧
    read_line 3 ("abcd".data ++ '\r' :: '\n' :: "t".data) "n".data =
      .error .lineTooLong ∧
    read_line 3 [] ("abcd".data ++ '\r' :: '\n' :: "x".data) =
      .error .notFound := by
  obtain ⟨h1, h2, h3, h4, -⟩ := dialog_read_line_boundary_and_no_truncation
  exact ⟨h1 3 "abc".data "x".data (by decide) (by decide),
    h2 3 "abcd".data "x".data (by decide) (by decide) (by decide),
    h3 3 "abcd".data "t".data "n".data (by decide) (by decide),
    h4 3 "abcd".data "x".data (by decide) (by decide)⟩

end Mailio
